import Mathlib

/-!
# The `plans_query` projection (`app/queries/plans.go`)

A shallow embedding of `PlansQuery`: the SQL statements it sends, the state
of the database they act on, the projection checkpoint, and the two string
functions that encode and decode the asset list.

Go strings are modelled by `String`, Go `int` by `Int` (no arithmetic is done
on the integers: they are only stored and read back), `float64` by the bit
pattern of the IEEE 754 double (no arithmetic is done on it either).
-/

namespace strings

/-- Go `strings.Join(elems, sep)`: the elements, with `sep` between each two. -/
def Join : List String → String → String
  | [], _ => ""
  | [a], _ => a
  | a :: b :: rest, sep => a ++ sep ++ Join (b :: rest) sep

/-- The scanning loop of `strings.Split` for a one-character separator: `cur`
is the field read so far; every occurrence of `sep` ends a field. -/
def splitFields (sep : Char) : List Char → List Char → List (List Char)
  | [], cur => [cur]
  | c :: cs, cur =>
    if c = sep then cur :: splitFields sep cs [] else splitFields sep cs (cur ++ [c])

/-- Go `strings.Split(s, sep)` for a separator of one character, the only form
used by the source (`strings.Split(assets, ",")`). -/
def Split (s : String) (sep : Char) : List String :=
  (splitFields sep s.data []).map String.mk

end strings

namespace queries

/-- A Go `float64`, kept as the bit pattern of the IEEE 754 double. -/
structure Float64 where
  bits : Nat
deriving DecidableEq, Repr

/-- Whether the double is a NaN: the eleven exponent bits are all set and the
fraction is not zero. -/
def Float64.isNaN (f : Float64) : Bool :=
  decide ((f.bits / 2 ^ 52) % 2 ^ 11 = 2047) && decide (f.bits % 2 ^ 52 ≠ 0)

/-- Modelled from the spec: `domain.PlanCreated` is declared in the `domain`
package, which is not part of the source tree; the fields are the ones that
`insertPlan` reads (§8: id, assets, quantum, lossProtection, timeFrame). -/
structure PlanCreated where
  Assets : List String
  Security : String
  Strategy : String
  Quantum : Int
  LossProtection : Float64
  InvestingPeriod : Int
deriving DecidableEq, Repr

/-- The payload of an event, `event.Data()`: `Callback` distinguishes a
`*domain.PlanCreated` from a payload of any other type. A nil
`*domain.PlanCreated` is not a payload of the log: `insertPlan` would stop on
it before any statement is sent, and it is left out of the type. -/
inductive EventData where
  | planCreated (e : PlanCreated)
  | other (typeName : String)
deriving DecidableEq, Repr

/-- An `eventsourcing.Event`: `{aggregate_id, global_sequence, type, payload}`. -/
structure Event where
  AggregateID : String
  GlobalVersion : Nat
  Data : EventData
deriving DecidableEq, Repr

/-- A value held in a table cell or bound to a `?` of a statement. -/
inductive Value where
  | null
  | integer (i : Int)
  | real (f : Float64)
  | text (s : String)
deriving DecidableEq, Repr

/-- A column of a table definition. -/
structure Column where
  name : String
  type : String
  primaryKey : Bool
deriving DecidableEq, Repr

/-- A table: its columns and its rows, each row holding one value per column,
in the order of the columns. -/
structure Table where
  columns : List Column
  rows : List (List Value)
deriving DecidableEq, Repr

/-- Go `error` values that the projection can return. -/
inductive Error where
  | noSuchTable (table : String)
  | noSuchColumn (table column : String)
  | valueCount (values columns : Nat)
  | uniqueConstraint (table column : String)
  | scanCount (columns dest : Nat)
  | scanConvert (index : Nat)
  | storeUnavailable
  | wrapped (message : String) (err : Error)
deriving DecidableEq, Repr

/-- The two statements that the source passes to `Exec`. -/
inductive Stmt where
  | createTableIfNotExists (table : String) (columns : List Column)
  | insertInto (table : String) (columns : List String) (values : List Value)
deriving DecidableEq, Repr

/-- The database behind the `*sql.DB` handle: its tables by name, and the
checkpoint (`last_applied_sequence`) of every projection by name, 0 for a
projection that has never run. -/
structure DB where
  tables : String → Option Table
  checkpoints : String → Nat

/-- The value that an `insert` binds to the column `c`: the value at the
position of `c` in the column list, `NULL` when the column is not named. -/
def boundValue : List String → List Value → String → Value
  | c :: cs, v :: vs, name => if c = name then v else boundValue cs vs name
  | _, _, _ => Value.null

/-- The value of the column `name` in a row of a table with columns `cols`. -/
def cell : List Column → List Value → String → Value
  | col :: cols, v :: vs, name => if col.name = name then v else cell cols vs name
  | _, _, _ => Value.null

/-- The value that the database keeps for a bound value, in the SQLite dialect
of the statements: a NaN is kept as `NULL`, negative zero as zero, every other
value as it is. -/
def stored : Value → Value
  | .real f => if f.isNaN then .null else if f.bits = 2 ^ 63 then .real ⟨0⟩ else .real f
  | v => v

/-- The first primary-key column in which `row` repeats the (non-null) value
of a row already in the table. -/
def keyConflict (tbl : Table) (row : List Value) : Option Column :=
  tbl.columns.find? (fun col =>
    col.primaryKey && decide (cell tbl.columns row col.name ≠ Value.null) &&
      tbl.rows.any (fun r =>
        decide (cell tbl.columns r col.name = cell tbl.columns row col.name)))

/-- The table after `insert into t (cols) values (vals)`, or the error of the
statement: it is rejected when a named column is not a column of the table,
when the number of values is not the number of columns, or when a primary key
would be repeated; otherwise the row, with every value as the database keeps
it, is added after the existing rows. -/
def insertRow (t : String) (tbl : Table) (cols : List String) (vals : List Value) :
    Except Error Table :=
  match cols.find? (fun c => decide (c ∉ tbl.columns.map Column.name)) with
  | some c => .error (.noSuchColumn t c)
  | none =>
    if vals.length ≠ cols.length then
      .error (.valueCount vals.length cols.length)
    else
      match keyConflict tbl
        (tbl.columns.map (fun col => stored (boundValue cols vals col.name))) with
      | some col => .error (.uniqueConstraint t col.name)
      | none =>
        .ok { tbl with
          rows := tbl.rows ++
            [tbl.columns.map (fun col => stored (boundValue cols vals col.name))] }

/-- Execution of one statement against the database. A statement that is
rejected leaves the database as it was.

* `create table if not exists`: nothing happens when a table of that name
  exists (whatever its columns); otherwise the empty table is created.
* `insert into`: rejected when the table does not exist or `insertRow` rejects
  the row; otherwise the table is replaced by the one with the new row. -/
def DB.Exec (db : DB) : Stmt → DB × Option Error
  | .createTableIfNotExists t cols =>
    match db.tables t with
    | some _ => (db, none)
    | none => ({ db with tables := Function.update db.tables t (some ⟨cols, []⟩) }, none)
  | .insertInto t cols vals =>
    match db.tables t with
    | none => (db, some (.noSuchTable t))
    | some tbl =>
      match insertRow t tbl cols vals with
      | .error err => (db, some err)
      | .ok tbl1 => ({ db with tables := Function.update db.tables t (some tbl1) }, none)

/-- The query `select * from t`: the rows of `t`, in insertion order. -/
def DB.Query (db : DB) (t : String) : Except Error (List (List Value)) :=
  match db.tables t with
  | none => .error (.noSuchTable t)
  | some tbl => .ok tbl.rows

/-- Modelled from the spec: `common.BaseProjection` is not part of the source
tree. §2 and §4.1: a projection holds the database handle and its name, the
"durable key joining a projection's checkpoint row to its logic". -/
structure BaseProjection where
  db : DB
  name : String

/-- Modelled from the spec: `common.NewBaseProjection` is not part of the
source tree. §4.1: the checkpoint of a name is created "with 0 on first
registration" and is kept otherwise; here a name without a stored checkpoint
already reads 0. -/
def NewBaseProjection (db : DB) (name : String) : Except Error BaseProjection :=
  .ok ⟨db, name⟩

/-- Modelled from the spec: `get(name)` of the checkpoint store (§4.1),
"returns last_applied_sequence for a projection, or 0 if the projection has
never run". -/
def BaseProjection.checkpoint (bp : BaseProjection) : Nat :=
  bp.db.checkpoints bp.name

/-- Modelled from the spec: `pq.Exec` is reached through `common.BaseProjection`,
which is not part of the source tree (§9: the projection holds a writer handle
on the shared database handle). The statement is executed on the database of
the projection; the source opens no transaction around it and rolls nothing
back, so an accepted statement stays. -/
def BaseProjection.Exec (bp : BaseProjection) (stmt : Stmt) : BaseProjection × Option Error :=
  let r := bp.db.Exec stmt
  ({ bp with db := r.1 }, r.2)

/-- Modelled from the spec: `pq.Query` is reached through
`common.BaseProjection`, which is not part of the source tree (§6: "read-only
accessors over its derived table(s)"). The query is run on the database of the
projection. -/
def BaseProjection.Query (bp : BaseProjection) (t : String) : Except Error (List (List Value)) :=
  bp.db.Query t

/-- Modelled from the spec: `Increment` belongs to `common.BaseProjection`,
which is not part of the source tree. §3 and §4.3: the checkpoint of the
projection goes from `c` to `c+1`; §7: the checkpoint store can be temporarily
unavailable, and then nothing is written: the state returned is the state in
which `Increment` was called. `storeUp` tells whether the store takes the write
of this call. Whether a statement accepted earlier in the same unit of work
would be undone with a refused write (§4.1) is decided outside the source tree;
on the table made by `createTable` no insert is accepted before `Increment`,
so there the state returned is the state before the `Callback`. -/
def BaseProjection.Increment (storeUp : Bool) (bp : BaseProjection) :
    BaseProjection × Option Error :=
  if storeUp then
    ({ bp with db := { bp.db with
        checkpoints := Function.update bp.db.checkpoints bp.name (bp.db.checkpoints bp.name + 1) } },
      none)
  else
    (bp, some .storeUnavailable)

/-- `PlansQuery` is a query that keeps track of all plans. -/
structure PlansQuery where
  BaseProjection : BaseProjection

/-- The table of the projection, if it exists. -/
def PlansQuery.table (pq : PlansQuery) : Option Table :=
  pq.BaseProjection.db.tables "plans_query"

/-- The rows of `plans_query` (none when the table does not exist). -/
def PlansQuery.rows (pq : PlansQuery) : List (List Value) :=
  match pq.table with
  | some tbl => tbl.rows
  | none => []

/-- The checkpoint of the projection. -/
def PlansQuery.checkpoint (pq : PlansQuery) : Nat :=
  pq.BaseProjection.checkpoint

/-- The columns of the `create table` statement of `createTable`. -/
def createTableColumns : List Column :=
  [ ⟨"id", "VARCHAR", true⟩,
    ⟨"assets", "TEXT", false⟩,
    ⟨"security", "TEXT", false⟩,
    ⟨"strategy", "TEXT", false⟩,
    ⟨"quantum", "INTEGER", false⟩,
    ⟨"loss_protection", "REAL", false⟩,
    ⟨"time_frame", "INTEGER", false⟩ ]

/-- `createTable`: `create table if not exists plans_query (...)`. -/
def PlansQuery.createTable (pq : PlansQuery) : PlansQuery × Option Error :=
  let r := pq.BaseProjection.Exec (.createTableIfNotExists "plans_query" createTableColumns)
  (⟨r.1⟩, r.2)

/-- `NewPlansQuery` creates a new `PlansQuery`: the base projection named
"plans_query", then `createTable`. The event store argument is only passed on
to `NewBaseProjection` and is left out. -/
def NewPlansQuery (db : DB) : Except Error PlansQuery :=
  match NewBaseProjection db "plans_query" with
  | .error err => .error err
  | .ok bp =>
    let pq : PlansQuery := ⟨bp⟩
    match pq.createTable with
    | (_, some err) => .error (.wrapped "failed to create plans_query table" err)
    | (pq1, none) => .ok pq1

/-- The columns named by the `insert` statement of `insertPlan`. -/
def insertPlanColumns : List String :=
  ["id", "assets", "security", "strategy", "quantum", "loss_protection", "investing_period"]

/-- The values bound by `insertPlan`, in the order of `insertPlanColumns`. -/
def insertPlanValues (id : String) (e : PlanCreated) : List Value :=
  [ .text id, .text (strings.Join e.Assets ","), .text e.Security, .text e.Strategy,
    .integer e.Quantum, .real e.LossProtection, .integer e.InvestingPeriod ]

/-- `insertPlan`: `insert into plans_query (id, assets, security, strategy,
quantum, loss_protection, investing_period) values (?, ?, ?, ?, ?, ?, ?)`. -/
def PlansQuery.insertPlan (pq : PlansQuery) (id : String) (e : PlanCreated) :
    PlansQuery × Option Error :=
  let r := pq.BaseProjection.Exec
    (.insertInto "plans_query" insertPlanColumns (insertPlanValues id e))
  (⟨r.1⟩, r.2)

/-- `Callback` implements `common.Projection.Callback`: a `PlanCreated` is
inserted, and an error of the insert is returned at once; then the checkpoint
is incremented. The state after the call comes with the error returned;
`storeUp` is the answer of the checkpoint store to the `Increment` of this
call. -/
def PlansQuery.Callback (storeUp : Bool) (pq : PlansQuery) (event : Event) :
    PlansQuery × Option Error :=
  let r :=
    match event.Data with
    | .planCreated e => pq.insertPlan event.AggregateID e
    | .other _ => (pq, none)
  match r.2 with
  | some err => (r.1, some (.wrapped "failed to insert plan" err))
  | none =>
    match r.1.BaseProjection.Increment storeUp with
    | (bp, some err) => (⟨bp⟩, some (.wrapped "failed to increment" err))
    | (bp, none) => (⟨bp⟩, none)

/-- The read model row returned by `All`. -/
structure Plan where
  Id : String
  Assets : List String
  Security : String
  Strategy : String
  Quantum : Int
  LossProtection : Float64
  TimeFrame : Int
deriving DecidableEq, Repr

/-- `rows.Scan` into the seven variables of `All`, by position, and the `Plan`
built from them. A cell is read into a variable of its own class (text into a
`string`, integer into an `int`, real into a `float64`); the conversions that
`database/sql` attempts between classes are not modelled and count as a scan
error, as does `NULL`. -/
def scanPlan : List Value → Except Error Plan
  | [c0, c1, c2, c3, c4, c5, c6] =>
    match c0, c1, c2, c3, c4, c5, c6 with
    | .text id, .text assets, .text security, .text strategy, .integer quantum,
      .real lossProtection, .integer timeFrame =>
      .ok { Id := id, Assets := strings.Split assets ',', Security := security,
            Strategy := strategy, Quantum := quantum, LossProtection := lossProtection,
            TimeFrame := timeFrame }
    | .text _, .text _, .text _, .text _, .integer _, .real _, _ => .error (.scanConvert 6)
    | .text _, .text _, .text _, .text _, .integer _, _, _ => .error (.scanConvert 5)
    | .text _, .text _, .text _, .text _, _, _, _ => .error (.scanConvert 4)
    | .text _, .text _, .text _, _, _, _, _ => .error (.scanConvert 3)
    | .text _, .text _, _, _, _, _, _ => .error (.scanConvert 2)
    | .text _, _, _, _, _, _, _ => .error (.scanConvert 1)
    | _, _, _, _, _, _, _ => .error (.scanConvert 0)
  | row => .error (.scanCount row.length 7)

/-- The loop of `All` over the rows of the result set: the first row that
cannot be scanned ends it with "failed to scan plan". -/
def scanRows : List (List Value) → Except Error (List Plan)
  | [] => .ok []
  | row :: rest =>
    match scanPlan row with
    | .error err => .error (.wrapped "failed to scan plan" err)
    | .ok plan =>
      match scanRows rest with
      | .error err => .error err
      | .ok plans => .ok (plan :: plans)

/-- `All` returns all plans. -/
def PlansQuery.All (pq : PlansQuery) : Except Error (List Plan) :=
  match pq.BaseProjection.Query "plans_query" with
  | .error err => .error (.wrapped "failed to query plans" err)
  | .ok rows => scanRows rows

/-- Modelled from the spec: no loop that drives `Callback` is part of the
source tree. §4.3 and §7: the events are handed to `Callback` one after another,
in the order given, and an error halts the loop at the failing event. Each
event comes with the answer of the checkpoint store for that call; the result
of every call made is recorded next to the final state. -/
def applyEvents (pq : PlansQuery) : List (Bool × Event) → PlansQuery × List (Option Error)
  | [] => (pq, [])
  | (storeUp, event) :: rest =>
    let r := pq.Callback storeUp event
    match r.2 with
    | some err => (r.1, [some err])
    | none =>
      let rs := applyEvents r.1 rest
      (rs.1, none :: rs.2)

/-- Modelled from the spec: the dispatch loop of the Projection Runner (§4.3),
which is not part of the source tree. The checkpoint `c` of the projection is
read and the event of the log with `global_sequence = c+1` is handed to
`Callback` ("strict, no gaps"); when the log holds no such event the loop has
caught up and ends. After a `Callback` that returns no error the loop goes on;
an error halts it at the failing sequence (§7). `up` is the answer of the
checkpoint store to the `Increment` for each sequence, and at most `n` events
are handed over (an interruption after `n` events). The result is the state
reached, the events applied, in order, and the error at which the loop
halted. -/
def dispatch (up : Nat → Bool) :
    Nat → PlansQuery → List Event → PlansQuery × List Event × Option Error
  | 0, pq, _ => (pq, [], none)
  | n + 1, pq, log =>
    match log.find? (fun event => decide (event.GlobalVersion = pq.checkpoint + 1)) with
    | none => (pq, [], none)
    | some event =>
      let r := pq.Callback (up (pq.checkpoint + 1)) event
      match r.2 with
      | some err => (r.1, [], some err)
      | none =>
        let rs := dispatch up n r.1 log
        (rs.1, event :: rs.2.1, rs.2.2)

/-- The columns of `plans_query` (none when the table does not exist). -/
def PlansQuery.columns (pq : PlansQuery) : List Column :=
  match pq.table with
  | some tbl => tbl.columns
  | none => []

/-- The row that the statement of `insertPlan` adds to a table with columns
`cols`: for every column the value bound to it, as the database keeps it. -/
def planRow (cols : List Column) (id : String) (e : PlanCreated) : List Value :=
  cols.map (fun col => stored (boundValue insertPlanColumns (insertPlanValues id e) col.name))

/-- The rows of the `PlanCreated` events of a log, in the order of the log. -/
def planRows (cols : List Column) : List Event → List (List Value)
  | [] => []
  | event :: rest =>
    match event.Data with
    | .planCreated e => planRow cols event.AggregateID e :: planRows cols rest
    | .other _ => planRows cols rest

/-- Whether the projection is as `NewPlansQuery` leaves it: named
"plans_query", with a table `plans_query` that has the columns declared by
`createTable`. -/
def PlansQuery.created (pq : PlansQuery) : Bool :=
  decide (pq.BaseProjection.name = "plans_query") &&
    match pq.table with
    | some tbl => decide (tbl.columns = createTableColumns)
    | none => false

/-- A database without tables, in which no projection has run. -/
def emptyDB : DB := ⟨fun _ => none, fun _ => 0⟩

/-- The freshly created projection: what `NewPlansQuery` returns on the empty
database (the empty table made by `createTable`, checkpoint 0). -/
def freshPlansQuery : PlansQuery :=
  ⟨⟨⟨Function.update (fun _ => none) "plans_query" (some ⟨createTableColumns, []⟩), fun _ => 0⟩,
    "plans_query"⟩⟩

/-- The columns of `createTable` with the last one under the name that the
insert statement of `insertPlan` uses: the columns on which the rows of
`insertPlan` can be written out. -/
def earlierColumns : List Column :=
  [ ⟨"id", "VARCHAR", true⟩,
    ⟨"assets", "TEXT", false⟩,
    ⟨"security", "TEXT", false⟩,
    ⟨"strategy", "TEXT", false⟩,
    ⟨"quantum", "INTEGER", false⟩,
    ⟨"loss_protection", "REAL", false⟩,
    ⟨"investing_period", "INTEGER", false⟩ ]

/-- The `float64` 0.1. -/
def oneTenth : Float64 := ⟨0x3FB999999999999A⟩

/-- The event of the scenario of §8: `PlanCreated(id="p1", assets=["BTC","ETH"],
quantum=3, lossProtection=0.1, timeFrame=30)` at sequence 1. -/
def scenarioEvent : Event :=
  ⟨"p1", 1, .planCreated ⟨["BTC", "ETH"], "", "", 3, oneTenth, 30⟩⟩

/-- An event whose payload is not a `PlanCreated`. -/
def otherEvent (seq : Nat) : Event := ⟨"p1", seq, .other "PlanRenamed"⟩

/-! ## `strings.Join` and `strings.Split` -/

theorem splitFields_field (sep : Char) (x rest cur : List Char) (hx : sep ∉ x) :
    strings.splitFields sep (x ++ rest) cur = strings.splitFields sep rest (cur ++ x) := by
  induction x generalizing cur with
  | nil => simp
  | cons c x ih =>
    have hc : c ≠ sep := fun h => hx (by simp [h])
    have hx1 : sep ∉ x := fun h => hx (by simp [h])
    rw [List.cons_append]
    simp only [strings.splitFields, hc, if_false]
    rw [ih _ hx1]
    simp

theorem splitFields_length (sep : Char) (s cur : List Char) :
    (strings.splitFields sep s cur).length = s.count sep + 1 := by
  induction s generalizing cur with
  | nil => simp [strings.splitFields]
  | cons c s ih =>
    by_cases hc : c = sep
    · simp [strings.splitFields, hc, ih]
    · simp [strings.splitFields, hc, ih, List.count_cons]

theorem Join_data_cons (x y : String) (rest : List String) :
    (strings.Join (x :: y :: rest) ",").data = x.data ++ ',' :: (strings.Join (y :: rest) ",").data := by
  simp [strings.Join, String.data_append]

theorem Split_Join_of_clean (a : List String) (hne : a ≠ [])
    (hclean : ∀ x ∈ a, ',' ∉ x.data) : strings.Split (strings.Join a ",") ',' = a := by
  induction a with
  | nil => exact absurd rfl hne
  | cons x rest ih =>
    cases rest with
    | nil =>
      have hx := hclean x (by simp)
      have := splitFields_field ',' x.data [] [] hx
      simp only [List.append_nil] at this
      simp [strings.Split, strings.Join, this, strings.splitFields]
    | cons y rest =>
      have hx := hclean x (by simp)
      have hrest := ih (by simp) (fun z hz => hclean z (by simp [hz]))
      have := splitFields_field ',' x.data (',' :: (strings.Join (y :: rest) ",").data) [] hx
      simp only [strings.Split] at hrest
      simp only [strings.Split, Join_data_cons, this, strings.splitFields, if_true, List.nil_append,
        List.map_cons, hrest]

theorem Join_count (a : List String) (hne : a ≠ []) :
    (strings.Join a ",").data.count ',' + 1 = (a.map (fun x => x.data.count ',')).sum + a.length := by
  induction a with
  | nil => exact absurd rfl hne
  | cons x rest ih =>
    cases rest with
    | nil => simp [strings.Join]
    | cons y rest =>
      have h := ih (by simp)
      rw [Join_data_cons]
      simp only [List.count_append, List.count_cons_self, List.map_cons, List.sum_cons,
        List.length_cons] at h ⊢
      omega

theorem Split_Join_iff (a : List String) :
    strings.Split (strings.Join a ",") ',' = a ↔ a ≠ [] ∧ ∀ x ∈ a, ',' ∉ x.data := by
  constructor
  · intro h
    have hne : a ≠ [] := by
      rintro rfl
      simp [strings.Split, strings.Join, strings.splitFields] at h
    refine ⟨hne, ?_⟩
    have hlen := congrArg List.length h
    simp only [strings.Split, List.length_map, splitFields_length] at hlen
    have hc := Join_count a hne
    have hsum : (a.map (fun x => x.data.count ',')).sum = 0 := by omega
    intro x hx
    have : x.data.count ',' = 0 := by
      have hmem : x.data.count ',' ∈ a.map (fun x => x.data.count ',') :=
        List.mem_map.mpr ⟨x, hx, rfl⟩
      have hle := List.single_le_sum (fun _ _ => Nat.zero_le _) (x.data.count ',') hmem
      omega
    exact List.count_eq_zero.mp this
  · rintro ⟨hne, hclean⟩
    exact Split_Join_of_clean a hne hclean
/-! ## Statements and the database -/

theorem insertRow_ok (t : String) (tbl tbl1 : Table) (cols : List String) (vals : List Value)
    (h : insertRow t tbl cols vals = .ok tbl1) :
    tbl1 = { tbl with
      rows := tbl.rows ++
        [tbl.columns.map (fun col => stored (boundValue cols vals col.name))] } := by
  unfold insertRow at h
  split at h
  · cases h
  · split at h
    · cases h
    · split at h
      · cases h
      · cases h; rfl

theorem DB.Exec_insert_error (db : DB) (t : String) (cols : List String) (vals : List Value)
    (err : Error) (h : (db.Exec (.insertInto t cols vals)).2 = some err) :
    (db.Exec (.insertInto t cols vals)).1 = db := by
  cases htbl : db.tables t with
  | none => simp [DB.Exec, htbl]
  | some tbl =>
    cases hrow : insertRow t tbl cols vals with
    | error e => simp [DB.Exec, htbl, hrow]
    | ok tbl1 => simp [DB.Exec, htbl, hrow] at h

theorem DB.Exec_insert_ok (db : DB) (t : String) (cols : List String) (vals : List Value)
    (h : (db.Exec (.insertInto t cols vals)).2 = none) :
    ∃ tbl, db.tables t = some tbl ∧
      (db.Exec (.insertInto t cols vals)).1 =
        { db with tables := Function.update db.tables t (some { tbl with
            rows := tbl.rows ++
              [tbl.columns.map (fun col => stored (boundValue cols vals col.name))] }) } := by
  cases htbl : db.tables t with
  | none => simp [DB.Exec, htbl] at h
  | some tbl =>
    cases hrow : insertRow t tbl cols vals with
    | error e => simp [DB.Exec, htbl, hrow] at h
    | ok tbl1 =>
      refine ⟨tbl, rfl, ?_⟩
      have := insertRow_ok t tbl tbl1 cols vals hrow
      subst this
      simp [DB.Exec, htbl, hrow]

/-! ## `insertPlan` and `Increment` -/

theorem insertPlan_error (pq : PlansQuery) (id : String) (e : PlanCreated) (err : Error)
    (h : (pq.insertPlan id e).2 = some err) : (pq.insertPlan id e).1 = pq := by
  have := DB.Exec_insert_error pq.BaseProjection.db "plans_query" insertPlanColumns
    (insertPlanValues id e) err h
  simp only [PlansQuery.insertPlan, BaseProjection.Exec, this]

theorem insertPlan_ok (pq : PlansQuery) (id : String) (e : PlanCreated)
    (h : (pq.insertPlan id e).2 = none) :
    ∃ tbl, pq.table = some tbl ∧
      (pq.insertPlan id e).1 =
        ⟨⟨{ pq.BaseProjection.db with
              tables := Function.update pq.BaseProjection.db.tables "plans_query"
                (some { tbl with rows := tbl.rows ++ [planRow tbl.columns id e] }) },
            pq.BaseProjection.name⟩⟩ := by
  obtain ⟨tbl, htbl, hdb⟩ := DB.Exec_insert_ok pq.BaseProjection.db "plans_query"
    insertPlanColumns (insertPlanValues id e) h
  refine ⟨tbl, htbl, ?_⟩
  simp only [PlansQuery.insertPlan, BaseProjection.Exec, hdb, planRow]

theorem Increment_up (bp : BaseProjection) :
    (bp.Increment true).2 = none ∧
    (bp.Increment true).1.db.tables = bp.db.tables ∧
    (bp.Increment true).1.name = bp.name ∧
    (bp.Increment true).1.checkpoint = bp.checkpoint + 1 := by
  simp [BaseProjection.Increment, BaseProjection.checkpoint]

theorem Callback_other (storeUp : Bool) (pq : PlansQuery) (event : Event)
    (hdata : ∀ e, event.Data ≠ .planCreated e) :
    pq.Callback storeUp event =
      if storeUp then (⟨(pq.BaseProjection.Increment true).1⟩, none)
      else (pq, some (.wrapped "failed to increment" .storeUnavailable)) := by
  cases hd : event.Data with
  | planCreated e => exact absurd hd (hdata e)
  | other n =>
    cases storeUp <;> simp [PlansQuery.Callback, hd, BaseProjection.Increment]

theorem Callback_planCreated (storeUp : Bool) (pq : PlansQuery) (event : Event)
    (e : PlanCreated) (hdata : event.Data = .planCreated e) :
    pq.Callback storeUp event =
      match (pq.insertPlan event.AggregateID e).2 with
      | some err => ((pq.insertPlan event.AggregateID e).1,
          some (.wrapped "failed to insert plan" err))
      | none =>
        if storeUp then
          (⟨((pq.insertPlan event.AggregateID e).1.BaseProjection.Increment true).1⟩, none)
        else
          ((pq.insertPlan event.AggregateID e).1,
            some (.wrapped "failed to increment" .storeUnavailable)) := by
  cases hi : (pq.insertPlan event.AggregateID e).2 with
  | some err => simp [PlansQuery.Callback, hdata, hi]
  | none => cases storeUp <;> simp [PlansQuery.Callback, hdata, hi, BaseProjection.Increment]

theorem insertPlan_ok_obs (pq : PlansQuery) (id : String) (e : PlanCreated)
    (h : (pq.insertPlan id e).2 = none) :
    (pq.insertPlan id e).1.rows = pq.rows ++ [planRow pq.columns id e] ∧
    (pq.insertPlan id e).1.columns = pq.columns ∧
    (pq.insertPlan id e).1.checkpoint = pq.checkpoint := by
  obtain ⟨tbl, htbl, hpq⟩ := insertPlan_ok pq id e h
  rw [hpq]
  simp only [PlansQuery.table] at htbl
  simp [PlansQuery.rows, PlansQuery.columns, PlansQuery.table, PlansQuery.checkpoint,
    BaseProjection.checkpoint, htbl]

theorem Increment_up_obs (pq : PlansQuery) :
    (PlansQuery.mk (pq.BaseProjection.Increment true).1).rows = pq.rows ∧
    (PlansQuery.mk (pq.BaseProjection.Increment true).1).columns = pq.columns ∧
    (PlansQuery.mk (pq.BaseProjection.Increment true).1).checkpoint = pq.checkpoint + 1 := by
  simp [PlansQuery.rows, PlansQuery.columns, PlansQuery.table, PlansQuery.checkpoint,
    BaseProjection.checkpoint, BaseProjection.Increment]

theorem Callback_ok_obs (storeUp : Bool) (pq : PlansQuery) (event : Event)
    (hok : (pq.Callback storeUp event).2 = none) :
    (pq.Callback storeUp event).1.rows = pq.rows ++ planRows pq.columns [event] ∧
    (pq.Callback storeUp event).1.columns = pq.columns ∧
    (pq.Callback storeUp event).1.checkpoint = pq.checkpoint + 1 := by
  cases hd : event.Data with
  | other n =>
    have hdata : ∀ e, event.Data ≠ .planCreated e := by simp [hd]
    rw [Callback_other storeUp pq event hdata] at hok ⊢
    cases storeUp with
    | false => simp at hok
    | true => simpa [planRows, hd] using Increment_up_obs pq
  | planCreated e =>
    rw [Callback_planCreated storeUp pq event e hd] at hok ⊢
    cases hi : (pq.insertPlan event.AggregateID e).2 with
    | some err => simp [hi] at hok
    | none =>
      simp only [hi] at hok ⊢
      cases storeUp with
      | false => simp at hok
      | true =>
        obtain ⟨h1, h2, h3⟩ := insertPlan_ok_obs pq event.AggregateID e hi
        obtain ⟨k1, k2, k3⟩ := Increment_up_obs (pq.insertPlan event.AggregateID e).1
        simp only [if_true, planRows, hd]
        rw [k1, k2, k3, h1, h2, h3]
        exact ⟨rfl, rfl, rfl⟩

theorem planRows_append (cols : List Column) (xs ys : List Event) :
    planRows cols (xs ++ ys) = planRows cols xs ++ planRows cols ys := by
  induction xs with
  | nil => simp [planRows]
  | cons x xs ih =>
    cases hd : x.Data <;> simp [planRows, hd, ih]

/-! ## The table made by `createTable` -/

theorem insertPlan_created (pq : PlansQuery) (id : String) (e : PlanCreated)
    (hc : ∀ tbl, pq.table = some tbl → tbl.columns = createTableColumns) :
    ∃ err, (pq.insertPlan id e).2 = some err := by
  cases htbl : pq.BaseProjection.db.tables "plans_query" with
  | none =>
    exact ⟨.noSuchTable "plans_query",
      by simp [PlansQuery.insertPlan, BaseProjection.Exec, DB.Exec, htbl]⟩
  | some tbl =>
    have hcols : tbl.columns = createTableColumns := hc tbl htbl
    refine ⟨.noSuchColumn "plans_query" "investing_period", ?_⟩
    simp [PlansQuery.insertPlan, BaseProjection.Exec, DB.Exec, htbl, insertRow, hcols,
      insertPlanColumns, createTableColumns]

theorem Callback_created (storeUp : Bool) (pq : PlansQuery) (event : Event)
    (hc : ∀ tbl, pq.table = some tbl → tbl.columns = createTableColumns) :
    ((pq.Callback storeUp event).2 = none ∧ (∀ e, event.Data ≠ .planCreated e) ∧
      (pq.Callback storeUp event).1 = ⟨(pq.BaseProjection.Increment true).1⟩) ∨
    ((pq.Callback storeUp event).2 ≠ none ∧ (pq.Callback storeUp event).1 = pq) := by
  cases hd : event.Data with
  | planCreated e =>
    obtain ⟨err, herr⟩ := insertPlan_created pq event.AggregateID e hc
    rw [Callback_planCreated storeUp pq event e hd]
    simp only [herr]
    exact Or.inr ⟨by simp, insertPlan_error pq event.AggregateID e err herr⟩
  | other n =>
    have hdata : ∀ e, event.Data ≠ .planCreated e := by simp [hd]
    rw [Callback_other storeUp pq event hdata]
    cases storeUp with
    | true => exact Or.inl ⟨rfl, by simp, rfl⟩
    | false => exact Or.inr ⟨by simp, rfl⟩

/-! ## The dispatch loop on the created projection -/

theorem created_iff (pq : PlansQuery) :
    pq.created = true ↔
      pq.BaseProjection.name = "plans_query" ∧
        ∃ tbl, pq.table = some tbl ∧ tbl.columns = createTableColumns := by
  unfold PlansQuery.created
  cases h : pq.table with
  | none => simp
  | some tbl => simp

theorem created_columns (pq : PlansQuery) (h : pq.created = true) :
    ∀ tbl, pq.table = some tbl → tbl.columns = createTableColumns := by
  obtain ⟨-, tbl0, h0, hcols⟩ := (created_iff pq).mp h
  intro tbl htbl
  rw [h0] at htbl
  cases htbl
  exact hcols

theorem Callback_created_error (storeUp : Bool) (pq : PlansQuery) (event : Event)
    (h : pq.created = true) (err : Error) (herr : (pq.Callback storeUp event).2 = some err) :
    (pq.Callback storeUp event).1 = pq := by
  rcases Callback_created storeUp pq event (created_columns pq h) with ⟨hok, -, -⟩ | ⟨-, hst⟩
  · rw [hok] at herr; cases herr
  · exact hst

theorem Callback_created_ok (storeUp : Bool) (pq : PlansQuery) (event : Event)
    (h : pq.created = true) (hok : (pq.Callback storeUp event).2 = none) :
    (pq.Callback storeUp event).1.created = true ∧
    (pq.Callback storeUp event).1.checkpoint = pq.checkpoint + 1 := by
  rcases Callback_created storeUp pq event (created_columns pq h) with ⟨-, -, hst⟩ | ⟨herr, -⟩
  · obtain ⟨-, ht, hn, hc⟩ := Increment_up pq.BaseProjection
    rw [hst]
    refine ⟨?_, hc⟩
    obtain ⟨hname, tbl, htbl, hcols⟩ := (created_iff pq).mp h
    refine (created_iff _).mpr ⟨by rw [hn]; exact hname, tbl, ?_, hcols⟩
    simp only [PlansQuery.table] at htbl ⊢
    rw [ht]; exact htbl
  · exact absurd hok herr

theorem restart_created (pq : PlansQuery) (h : pq.created = true) :
    NewPlansQuery pq.BaseProjection.db = .ok pq := by
  obtain ⟨hname, tbl, htbl, -⟩ := (created_iff pq).mp h
  simp only [PlansQuery.table] at htbl
  obtain ⟨⟨db, name⟩⟩ := pq
  simp only at hname htbl
  subst hname
  simp [NewPlansQuery, NewBaseProjection, PlansQuery.createTable, BaseProjection.Exec,
    DB.Exec, htbl]

theorem dispatch_caught_up (up : Nat → Bool) (n : Nat) (pq : PlansQuery) (log : List Event)
    (hf : log.find? (fun event => decide (event.GlobalVersion = pq.checkpoint + 1)) = none) :
    dispatch up n pq log = (pq, [], none) := by
  cases n with
  | zero => rfl
  | succ n => simp only [dispatch, hf]

theorem dispatch_halted (up : Nat → Bool) (n : Nat) (pq : PlansQuery) (log : List Event)
    (event : Event) (err : Error)
    (hf : log.find? (fun event => decide (event.GlobalVersion = pq.checkpoint + 1)) = some event)
    (herr : (pq.Callback (up (pq.checkpoint + 1)) event).2 = some err)
    (hst : (pq.Callback (up (pq.checkpoint + 1)) event).1 = pq) :
    (dispatch up n pq log).1 = pq ∧ (dispatch up n pq log).2.1 = [] := by
  cases n with
  | zero => exact ⟨rfl, rfl⟩
  | succ n =>
    simp only [dispatch, hf, herr]
    exact ⟨hst, trivial⟩

theorem dispatch_add (up : Nat → Bool) (log : List Event) (K m : Nat) (pq : PlansQuery)
    (h : pq.created = true) :
    (dispatch up K pq log).1.created = true ∧
    (dispatch up (K + m) pq log).1 = (dispatch up m (dispatch up K pq log).1 log).1 ∧
    (dispatch up (K + m) pq log).2.1 =
      (dispatch up K pq log).2.1 ++ (dispatch up m (dispatch up K pq log).1 log).2.1 := by
  induction K generalizing pq with
  | zero =>
    rw [Nat.zero_add]
    exact ⟨h, rfl, rfl⟩
  | succ K ih =>
    have hadd : K + 1 + m = (K + m) + 1 := by omega
    rw [hadd]
    cases hf : log.find? (fun event => decide (event.GlobalVersion = pq.checkpoint + 1)) with
    | none =>
      rw [dispatch_caught_up up (K + 1) pq log hf, dispatch_caught_up up (K + m + 1) pq log hf]
      simp only
      rw [dispatch_caught_up up m pq log hf]
      exact ⟨h, rfl, rfl⟩
    | some event =>
      cases hcb : (pq.Callback (up (pq.checkpoint + 1)) event).2 with
      | some err =>
        have hst := Callback_created_error (up (pq.checkpoint + 1)) pq event h err hcb
        obtain ⟨r1, r2⟩ := dispatch_halted up m pq log event err hf hcb hst
        simp only [dispatch, hf, hcb, hst, r1, r2]
        exact ⟨h, trivial, rfl⟩
      | none =>
        obtain ⟨hc1, -⟩ := Callback_created_ok (up (pq.checkpoint + 1)) pq event h hcb
        obtain ⟨i1, i2, i3⟩ := ih (pq.Callback (up (pq.checkpoint + 1)) event).1 hc1
        simp only [dispatch, hf, hcb]
        exact ⟨i1, i2, by rw [i3]; rfl⟩

theorem dispatch_end (up : Nat → Bool) (log : List Event) (n : Nat) (pq : PlansQuery)
    (h : pq.created = true) :
    (dispatch up n pq log).1.checkpoint = pq.checkpoint + (dispatch up n pq log).2.1.length ∧
    (dispatch up n pq log).2.1.map Event.GlobalVersion =
      List.range' (pq.checkpoint + 1) (dispatch up n pq log).2.1.length ∧
    (∀ event ∈ (dispatch up n pq log).2.1, event ∈ log) ∧
    ((dispatch up n pq log).2.1.length = n ∨
      ∀ k, (dispatch up k (dispatch up n pq log).1 log).1 = (dispatch up n pq log).1 ∧
        (dispatch up k (dispatch up n pq log).1 log).2.1 = []) ∧
    ((dispatch up n pq log).2.2 = none →
      (dispatch up n pq log).2.1.length = n ∨
        log.find? (fun event =>
          decide (event.GlobalVersion = (dispatch up n pq log).1.checkpoint + 1)) = none) := by
  induction n generalizing pq with
  | zero => simp [dispatch]
  | succ n ih =>
    cases hf : log.find? (fun event => decide (event.GlobalVersion = pq.checkpoint + 1)) with
    | none =>
      rw [dispatch_caught_up up (n + 1) pq log hf]
      refine ⟨rfl, rfl, by simp, Or.inr fun k => ?_, fun _ => Or.inr hf⟩
      rw [dispatch_caught_up up k pq log hf]
      exact ⟨rfl, rfl⟩
    | some event =>
      have hseq : event.GlobalVersion = pq.checkpoint + 1 := by
        simpa using List.find?_some hf
      have hmem : event ∈ log := List.mem_of_find?_eq_some hf
      cases hcb : (pq.Callback (up (pq.checkpoint + 1)) event).2 with
      | some err =>
        have hst := Callback_created_error (up (pq.checkpoint + 1)) pq event h err hcb
        simp only [dispatch, hf, hcb, hst]
        refine ⟨rfl, rfl, by simp, Or.inr fun k => ?_, fun hnone => by simp at hnone⟩
        exact dispatch_halted up k pq log event err hf hcb hst
      | none =>
        obtain ⟨hc1, hck⟩ := Callback_created_ok (up (pq.checkpoint + 1)) pq event h hcb
        obtain ⟨i1, i2, i3, i4, i5⟩ := ih (pq.Callback (up (pq.checkpoint + 1)) event).1 hc1
        simp only [dispatch, hf, hcb, List.length_cons, List.map_cons]
        refine ⟨by rw [i1, hck]; omega, ?_, ?_, ?_, ?_⟩
        · rw [List.range'_succ, i2, hseq, hck]
        · intro ev hev
          rcases List.mem_cons.mp hev with rfl | hev
          · exact hmem
          · exact i3 ev hev
        · rcases i4 with hlen | hstuck
          · exact Or.inl (by rw [hlen])
          · exact Or.inr hstuck
        · intro hnone
          rcases i5 hnone with hlen | hnf
          · exact Or.inl (by rw [hlen])
          · exact Or.inr hnf

theorem caught_up_of_full (log applied : List Event)
    (hsub : ∀ event ∈ applied, event ∈ log)
    (hseq : applied.map Event.GlobalVersion = List.range' 1 log.length) :
    log.find? (fun event => decide (event.GlobalVersion = log.length + 1)) = none := by
  cases hf : log.find? (fun event => decide (event.GlobalVersion = log.length + 1)) with
  | none => rfl
  | some event =>
    exfalso
    have hlast : event.GlobalVersion = log.length + 1 := by simpa using List.find?_some hf
    have hmem : event ∈ log := List.mem_of_find?_eq_some hf
    have hall : List.range' 1 (log.length + 1) ⊆ log.map Event.GlobalVersion := by
      intro x hx
      rw [List.mem_range'_1] at hx
      by_cases hx1 : x = log.length + 1
      · exact List.mem_map.mpr ⟨event, hmem, by rw [hlast, hx1]⟩
      · have hx2 : x ∈ applied.map Event.GlobalVersion := by
          rw [hseq, List.mem_range'_1]; omega
        obtain ⟨ev, hev, hevx⟩ := List.mem_map.mp hx2
        exact List.mem_map.mpr ⟨ev, hsub ev hev, hevx⟩
    have hle := ((List.nodup_range' 1 (log.length + 1)).subperm hall).length_le
    simp at hle

/-! ## The claims -/

/-- C1 (filtering): for every projection state and every event whose payload is
not a `PlanCreated`, a `Callback` that returns no error leaves every table of the
database, `plans_query` among them, exactly as it was, and the checkpoint of the
projection is one more than before. -/
theorem callback_filtering (storeUp : Bool) (pq : PlansQuery) (event : Event)
    (hdata : ∀ e, event.Data ≠ .planCreated e)
    (hok : (pq.Callback storeUp event).2 = none) :
    (pq.Callback storeUp event).1.BaseProjection.db.tables = pq.BaseProjection.db.tables ∧
    (pq.Callback storeUp event).1.table = pq.table ∧
    (pq.Callback storeUp event).1.checkpoint = pq.checkpoint + 1 := by
  rw [Callback_other storeUp pq event hdata] at hok ⊢
  cases storeUp with
  | false => simp at hok
  | true =>
    obtain ⟨-, ht, -, hc⟩ := Increment_up pq.BaseProjection
    simp only [if_true, PlansQuery.table, PlansQuery.checkpoint, ht, hc, and_self]

/-- C1, at a concrete input: the freshly created projection and an event that
is not a `PlanCreated`. -/
theorem callback_filtering_witness :
    (∀ e, (otherEvent 1).Data ≠ .planCreated e) ∧
    (freshPlansQuery.Callback true (otherEvent 1)).2 = none ∧
    (freshPlansQuery.Callback true (otherEvent 1)).1.BaseProjection.db.tables =
      freshPlansQuery.BaseProjection.db.tables ∧
    (freshPlansQuery.Callback true (otherEvent 1)).1.table = freshPlansQuery.table ∧
    (freshPlansQuery.Callback true (otherEvent 1)).1.checkpoint =
      freshPlansQuery.checkpoint + 1 :=
  ⟨by simp [otherEvent], by decide,
    callback_filtering true freshPlansQuery (otherEvent 1) (by simp [otherEvent]) (by decide)⟩

/-- C2 (the scenario of §8), evaluated on the code: `NewPlansQuery` on the empty
database gives the fresh projection; `Callback` on the `PlanCreated` event of
the scenario returns "failed to insert plan", because the statement of
`insertPlan` names the column `investing_period`, which the table made by
`createTable` does not have; afterwards `All` returns no plan and the
checkpoint of "plans_query" is still 0. -/
theorem scenario_insert_rejected :
    NewPlansQuery emptyDB = .ok freshPlansQuery ∧
    (freshPlansQuery.Callback true scenarioEvent).2 =
      some (.wrapped "failed to insert plan"
        (.noSuchColumn "plans_query" "investing_period")) ∧
    (freshPlansQuery.Callback true scenarioEvent).1.All = .ok [] ∧
    (freshPlansQuery.Callback true scenarioEvent).1.BaseProjection.db.checkpoints
      "plans_query" = 0 := by
  refine ⟨rfl, by decide, rfl, by decide⟩

/-- C4 (no advance on an insert error): when the payload is a `PlanCreated` and
`insertPlan` returns an error, `Callback` returns that error wrapped as "failed
to insert plan" together with the unchanged prior state; the checkpoint is the
prior one, and the answer that the checkpoint store would have given plays no
part in the result (`Increment` is not reached). -/
theorem callback_insert_error (storeUp : Bool) (pq : PlansQuery) (event : Event)
    (e : PlanCreated) (err : Error)
    (hdata : event.Data = .planCreated e)
    (herr : (pq.insertPlan event.AggregateID e).2 = some err) :
    pq.Callback storeUp event = (pq, some (.wrapped "failed to insert plan" err)) ∧
    (pq.Callback storeUp event).1.checkpoint = pq.checkpoint ∧
    pq.Callback true event = pq.Callback false event := by
  have key : ∀ b, pq.Callback b event = (pq, some (.wrapped "failed to insert plan" err)) := by
    intro b
    rw [Callback_planCreated b pq event e hdata, herr,
      insertPlan_error pq event.AggregateID e err herr]
  exact ⟨key storeUp, by rw [key storeUp], by rw [key true, key false]⟩

/-- C4, at a concrete input: the fresh projection and the event of the scenario,
whose insert is rejected. -/
theorem callback_insert_error_witness :
    scenarioEvent.Data = .planCreated ⟨["BTC", "ETH"], "", "", 3, oneTenth, 30⟩ ∧
    (freshPlansQuery.insertPlan scenarioEvent.AggregateID
      ⟨["BTC", "ETH"], "", "", 3, oneTenth, 30⟩).2 =
        some (.noSuchColumn "plans_query" "investing_period") ∧
    freshPlansQuery.Callback true scenarioEvent =
      (freshPlansQuery, some (.wrapped "failed to insert plan"
        (.noSuchColumn "plans_query" "investing_period"))) ∧
    (freshPlansQuery.Callback true scenarioEvent).1.checkpoint = freshPlansQuery.checkpoint ∧
    freshPlansQuery.Callback true scenarioEvent = freshPlansQuery.Callback false scenarioEvent :=
  ⟨rfl, by decide,
    callback_insert_error true freshPlansQuery scenarioEvent
      ⟨["BTC", "ETH"], "", "", 3, oneTenth, 30⟩
      (.noSuchColumn "plans_query" "investing_period") rfl (by decide)⟩

/-- C9 (one column name), evaluated on the code: the insert statement names
`investing_period`, which is not a column of the table made by `createTable`,
while the column `time_frame` of that table is not named by the insert; so on
the freshly created table every `insertPlan`, whatever the id and the plan, is
rejected and leaves the table empty. -/
theorem insert_names_unknown_column (id : String) (e : PlanCreated) :
    NewPlansQuery emptyDB = .ok freshPlansQuery ∧
    "investing_period" ∈ insertPlanColumns ∧
    "investing_period" ∉ createTableColumns.map Column.name ∧
    "time_frame" ∈ createTableColumns.map Column.name ∧
    "time_frame" ∉ insertPlanColumns ∧
    freshPlansQuery.insertPlan id e =
      (freshPlansQuery, some (.noSuchColumn "plans_query" "investing_period")) := by
  have h : (freshPlansQuery.insertPlan id e).2 =
      some (.noSuchColumn "plans_query" "investing_period") := by
    simp [PlansQuery.insertPlan, BaseProjection.Exec, DB.Exec, freshPlansQuery, insertRow,
      insertPlanColumns, createTableColumns]
  refine ⟨rfl, by decide, by decide, by decide, by decide, ?_⟩
  exact Prod.ext (insertPlan_error freshPlansQuery id e _ h) h

/-- C5 (ordering), evaluated on the code: on the freshly created projection the
log of one event, the `PlanCreated` of the scenario, is handed to `Callback`,
which returns "failed to insert plan" (the insert names `investing_period`);
the checkpoint is 0 and not the length 1 of the log, and the table is empty
although the log holds the row of one `PlanCreated`. -/
theorem ordering_plan_created_rejected :
    NewPlansQuery emptyDB = .ok freshPlansQuery ∧
    (applyEvents freshPlansQuery [(true, scenarioEvent)]).2 =
      [some (.wrapped "failed to insert plan"
        (.noSuchColumn "plans_query" "investing_period"))] ∧
    [(true, scenarioEvent)].length = 1 ∧
    (applyEvents freshPlansQuery [(true, scenarioEvent)]).1.checkpoint = 0 ∧
    (applyEvents freshPlansQuery [(true, scenarioEvent)]).1.rows = [] ∧
    planRows earlierColumns [scenarioEvent] =
      [[.text "p1", .text "BTC,ETH", .text "", .text "", .integer 3, .real oneTenth,
        .integer 30]] := by
  refine ⟨rfl, by decide, by decide, by decide, by decide, by decide⟩

/-- What holds of the order of application: for every projection state and every
log of N events handed to `Callback` one after another, if every call returns
no error, then the checkpoint has grown by N and the table holds its former
rows followed by the rows of the `PlanCreated` events of the log, in the order
of the log. -/
theorem applyEvents_all_ok (pq : PlansQuery) (log : List (Bool × Event))
    (hok : ∀ r ∈ (applyEvents pq log).2, r = none) :
    (applyEvents pq log).1.checkpoint = pq.checkpoint + log.length ∧
    (applyEvents pq log).1.rows = pq.rows ++ planRows pq.columns (log.map Prod.snd) ∧
    (applyEvents pq log).1.columns = pq.columns := by
  induction log generalizing pq with
  | nil => simp [applyEvents, planRows]
  | cons x rest ih =>
    obtain ⟨b, event⟩ := x
    cases hcb : (pq.Callback b event).2 with
    | some err =>
      have hnone : some err = none := hok (some err) (by simp [applyEvents, hcb])
      cases hnone
    | none =>
      have hrest : ∀ r ∈ (applyEvents (pq.Callback b event).1 rest).2, r = none := by
        intro r hr
        exact hok r (by simp [applyEvents, hcb, hr])
      obtain ⟨h1, h2, h3⟩ := Callback_ok_obs b pq event hcb
      obtain ⟨k1, k2, k3⟩ := ih _ hrest
      have hst : (applyEvents pq ((b, event) :: rest)).1 =
          (applyEvents (pq.Callback b event).1 rest).1 := by
        simp [applyEvents, hcb]
      rw [hst]
      simp only [List.map_cons, List.length_cons]
      refine ⟨by rw [k1, h3]; omega, ?_, by rw [k3, h2]⟩
      rw [k2, h1, h2, List.append_assoc, ← planRows_append]
      rfl

/-- C6 (checkpoint invariant), refuted as stated: after the event at sequence 1
has been applied to the fresh projection the checkpoint is 1; the same event,
whose sequence 1 is not above the checkpoint, handed to `Callback` again is
accepted and the checkpoint becomes 2. -/
theorem callback_applies_seen_event :
    (freshPlansQuery.Callback true (otherEvent 1)).1.checkpoint = 1 ∧
    (otherEvent 1).GlobalVersion ≤ (freshPlansQuery.Callback true (otherEvent 1)).1.checkpoint ∧
    ((freshPlansQuery.Callback true (otherEvent 1)).1.Callback true (otherEvent 1)).2 = none ∧
    ((freshPlansQuery.Callback true (otherEvent 1)).1.Callback true (otherEvent 1)).1.checkpoint
      = 2 := by
  refine ⟨by decide, by decide, by decide, by decide⟩

/-- C6 as amended: `Callback` does not look at the global sequence of the event.
For every projection state with checkpoint c and every event, the outcome is
the same whatever the global sequence of the event, at most c or not; and a
`Callback` that returns no error leaves the checkpoint at c+1 and has added the
row of the event when it is a `PlanCreated`. -/
theorem callback_ignores_sequence (storeUp : Bool) (pq : PlansQuery) (event : Event)
    (seq : Nat) :
    pq.Callback storeUp { event with GlobalVersion := seq } = pq.Callback storeUp event ∧
    ((pq.Callback storeUp event).2 = none →
      (pq.Callback storeUp event).1.checkpoint = pq.checkpoint + 1 ∧
      (pq.Callback storeUp event).1.rows = pq.rows ++ planRows pq.columns [event]) :=
  ⟨rfl, fun hok => ⟨(Callback_ok_obs storeUp pq event hok).2.2,
    (Callback_ok_obs storeUp pq event hok).1⟩⟩

/-- C7 (replay equals incremental dispatch, resumption): for every log, every
answer of the checkpoint store per sequence and every K, the dispatch loop run
from the freshly created projection and interrupted after K events, followed
by a restart (`NewPlansQuery` on the database left, which gives back the state
reached) and a run of the loop to the end, ends in the same state (tables and
checkpoints) as one pass of the loop over the whole log from the freshly
created projection; the events applied by the two parts together are the
events applied by the one pass; the resumed part applies the sequences that
follow the checkpoint it found, and the one pass applies the sequences 1 up to
its final checkpoint, each once and none left out; a pass that ends without an
error has caught up with the log. -/
theorem dispatch_resume (up : Nat → Bool) (log : List Event) (K : Nat) :
    NewPlansQuery emptyDB = .ok freshPlansQuery ∧
    ∃ pqK,
      NewPlansQuery (dispatch up K freshPlansQuery log).1.BaseProjection.db = .ok pqK ∧
      (dispatch up log.length pqK log).1 = (dispatch up log.length freshPlansQuery log).1 ∧
      (dispatch up K freshPlansQuery log).2.1 ++ (dispatch up log.length pqK log).2.1 =
        (dispatch up log.length freshPlansQuery log).2.1 ∧
      (dispatch up log.length pqK log).2.1.map Event.GlobalVersion =
        List.range' (pqK.checkpoint + 1) (dispatch up log.length pqK log).2.1.length ∧
      (dispatch up log.length freshPlansQuery log).2.1.map Event.GlobalVersion =
        List.range' 1 (dispatch up log.length freshPlansQuery log).1.checkpoint ∧
      ((dispatch up log.length freshPlansQuery log).2.2 = none →
        log.find? (fun event => decide (event.GlobalVersion =
          (dispatch up log.length freshPlansQuery log).1.checkpoint + 1)) = none) := by
  have hfresh : freshPlansQuery.created = true := by decide
  have hck0 : freshPlansQuery.checkpoint = 0 := rfl
  obtain ⟨a1, a2, a3⟩ := dispatch_add up log K log.length freshPlansQuery hfresh
  obtain ⟨-, b2, b3⟩ := dispatch_add up log log.length K freshPlansQuery hfresh
  obtain ⟨e1, e2, e3, e4, e5⟩ := dispatch_end up log log.length freshPlansQuery hfresh
  rw [hck0, Nat.zero_add] at e1 e2
  have hfull : (dispatch up log.length freshPlansQuery log).2.1.length = log.length →
      log.find? (fun event => decide (event.GlobalVersion =
        (dispatch up log.length freshPlansQuery log).1.checkpoint + 1)) = none := by
    intro hlen
    rw [e1, hlen]
    exact caught_up_of_full log _ e3 (by rw [e2, hlen])
  have hstuck : ∀ k,
      (dispatch up k (dispatch up log.length freshPlansQuery log).1 log).1 =
        (dispatch up log.length freshPlansQuery log).1 ∧
      (dispatch up k (dispatch up log.length freshPlansQuery log).1 log).2.1 = [] := by
    rcases e4 with hlen | hst
    · intro k
      rw [dispatch_caught_up up k _ log (hfull hlen)]
      exact ⟨rfl, rfl⟩
    · exact hst
  rw [Nat.add_comm K log.length] at a2 a3
  refine ⟨rfl, (dispatch up K freshPlansQuery log).1, restart_created _ a1, ?_, ?_, ?_, ?_, ?_⟩
  · rw [← a2, b2]; exact (hstuck K).1
  · rw [← a3, b3, (hstuck K).2, List.append_nil]
  · exact (dispatch_end up log log.length _ a1).2.1
  · rw [e2, e1]
  · intro hnone
    rcases e5 hnone with hlen | hnf
    · exact hfull hlen
    · exact hnf

/-- C8 (idempotent setup): for every state, `createTable` returns no error; when
`plans_query` already exists the state is left exactly as it was; the rows of
`plans_query` are the same after as before; running it a second time changes
nothing more and returns no error; and `NewPlansQuery` succeeds on every
database and gives the same projection when run again on the database it left. -/
theorem createTable_idempotent (pq : PlansQuery) :
    pq.createTable.2 = none ∧
    (pq.table ≠ none → pq.createTable.1 = pq) ∧
    pq.createTable.1.rows = pq.rows ∧
    pq.createTable.1.createTable = pq.createTable ∧
    (∃ pq1, NewPlansQuery pq.BaseProjection.db = .ok pq1 ∧
      NewPlansQuery pq1.BaseProjection.db = .ok pq1) := by
  cases htbl : pq.BaseProjection.db.tables "plans_query" with
  | some tbl =>
    have h1 : pq.createTable = (pq, none) := by
      simp [PlansQuery.createTable, BaseProjection.Exec, DB.Exec, htbl]
    refine ⟨by rw [h1], fun _ => by rw [h1], by rw [h1], by rw [h1, h1], ?_⟩
    exact ⟨⟨⟨pq.BaseProjection.db, "plans_query"⟩⟩,
      by simp [NewPlansQuery, NewBaseProjection, PlansQuery.createTable, BaseProjection.Exec,
        DB.Exec, htbl],
      by simp [NewPlansQuery, NewBaseProjection, PlansQuery.createTable, BaseProjection.Exec,
        DB.Exec, htbl]⟩
  | none =>
    refine ⟨?_, ?_, ?_, ?_, ?_⟩
    · simp [PlansQuery.createTable, BaseProjection.Exec, DB.Exec, htbl]
    · intro h; exact absurd htbl h
    · simp [PlansQuery.createTable, BaseProjection.Exec, DB.Exec, htbl, PlansQuery.rows,
        PlansQuery.table]
    · simp [PlansQuery.createTable, BaseProjection.Exec, DB.Exec, htbl]
    · refine ⟨⟨⟨⟨Function.update pq.BaseProjection.db.tables "plans_query"
        (some ⟨createTableColumns, []⟩), pq.BaseProjection.db.checkpoints⟩, "plans_query"⟩⟩,
        ?_, ?_⟩
      · simp [NewPlansQuery, NewBaseProjection, PlansQuery.createTable, BaseProjection.Exec,
          DB.Exec, htbl]
      · simp [NewPlansQuery, NewBaseProjection, PlansQuery.createTable, BaseProjection.Exec,
          DB.Exec]

/-- C3 (atomicity of one apply and advance): for every projection state whose
table `plans_query`, when it exists, has the columns declared by `createTable`,
and every event, the state after `Callback` is either the state with the table
write and the checkpoint advance both done (no error, checkpoint one more, the
rows of the event added) or the unchanged prior state (an error is returned);
no row is in the table after the call that was not there before unless the
checkpoint has moved, and the checkpoint has not moved on a `PlanCreated`
unless its row has been written. -/
theorem callback_atomic (storeUp : Bool) (pq : PlansQuery) (event : Event)
    (hcreated : ∀ tbl, pq.table = some tbl → tbl.columns = createTableColumns) :
    (((pq.Callback storeUp event).2 = none ∧
        (pq.Callback storeUp event).1.checkpoint = pq.checkpoint + 1 ∧
        (pq.Callback storeUp event).1.rows = pq.rows ++ planRows pq.columns [event]) ∨
      ((pq.Callback storeUp event).2 ≠ none ∧ (pq.Callback storeUp event).1 = pq)) ∧
    ((pq.Callback storeUp event).1.rows ≠ pq.rows →
      (pq.Callback storeUp event).1.checkpoint ≠ pq.checkpoint) ∧
    (∀ e, event.Data = .planCreated e →
      (pq.Callback storeUp event).1.checkpoint ≠ pq.checkpoint →
      (pq.Callback storeUp event).1.rows =
        pq.rows ++ [planRow pq.columns event.AggregateID e]) := by
  rcases Callback_created storeUp pq event hcreated with ⟨hok, hdata, hst⟩ | ⟨herr, hst⟩
  · obtain ⟨h1, -, h3⟩ := Callback_ok_obs storeUp pq event hok
    refine ⟨Or.inl ⟨hok, h3, h1⟩, fun _ => by rw [h3]; omega, fun e he => ?_⟩
    exact absurd he (hdata e)
  · refine ⟨Or.inr ⟨herr, hst⟩, fun h => ?_, fun e _ h => ?_⟩
    · rw [hst] at h; exact absurd rfl h
    · rw [hst] at h; exact absurd rfl h

/-- C3, at a concrete input: the freshly created projection, an event that is not
a `PlanCreated`, and a checkpoint store that refuses the write. -/
theorem callback_atomic_witness :
    (∀ tbl, freshPlansQuery.table = some tbl → tbl.columns = createTableColumns) ∧
    (((freshPlansQuery.Callback false (otherEvent 1)).2 = none ∧
        (freshPlansQuery.Callback false (otherEvent 1)).1.checkpoint =
          freshPlansQuery.checkpoint + 1 ∧
        (freshPlansQuery.Callback false (otherEvent 1)).1.rows =
          freshPlansQuery.rows ++ planRows freshPlansQuery.columns [otherEvent 1]) ∨
      ((freshPlansQuery.Callback false (otherEvent 1)).2 ≠ none ∧
        (freshPlansQuery.Callback false (otherEvent 1)).1 = freshPlansQuery)) ∧
    ((freshPlansQuery.Callback false (otherEvent 1)).1.rows ≠ freshPlansQuery.rows →
      (freshPlansQuery.Callback false (otherEvent 1)).1.checkpoint ≠
        freshPlansQuery.checkpoint) ∧
    (∀ e, (otherEvent 1).Data = .planCreated e →
      (freshPlansQuery.Callback false (otherEvent 1)).1.checkpoint ≠
        freshPlansQuery.checkpoint →
      (freshPlansQuery.Callback false (otherEvent 1)).1.rows =
        freshPlansQuery.rows ++ [planRow freshPlansQuery.columns (otherEvent 1).AggregateID e]) :=
  have hfresh : ∀ tbl, freshPlansQuery.table = some tbl → tbl.columns = createTableColumns := by
    intro tbl h
    simp only [PlansQuery.table, freshPlansQuery, Function.update_same, Option.some.injEq] at h
    rw [← h]
  ⟨hfresh, callback_atomic false freshPlansQuery (otherEvent 1) hfresh⟩

/-- C10 (assets round trip): `insertPlan` binds the text
`strings.Join(e.Assets, ",")` to the column `assets`, and `All` decodes the
assets of a row as `strings.Split(assets, ",")`; for every list of asset names
`a`, `strings.Split(strings.Join(a, ","), ",")` is `a` exactly when `a` is not
empty and no name in `a` contains a comma; the empty list is read back as the
list of one empty name, and a name with a comma as several names. -/
theorem assets_round_trip (a : List String) (id : String) (e : PlanCreated)
    (lossProtection : Float64) :
    (insertPlanColumns.zip (insertPlanValues id { e with Assets := a })).lookup "assets" =
      some (.text (strings.Join a ",")) ∧
    (scanPlan [.text id, .text (strings.Join a ","), .text e.Security, .text e.Strategy,
        .integer e.Quantum, .real lossProtection, .integer e.InvestingPeriod]).map Plan.Assets =
      .ok (strings.Split (strings.Join a ",") ',') ∧
    (strings.Split (strings.Join a ",") ',' = a ↔ a ≠ [] ∧ ∀ x ∈ a, ',' ∉ x.data) ∧
    strings.Split (strings.Join [] ",") ',' = [""] ∧
    strings.Split (strings.Join ["BTC,ETH", "SOL"] ",") ',' = ["BTC", "ETH", "SOL"] := by
  refine ⟨?_, rfl, Split_Join_iff a, by decide, by decide⟩
  simp [insertPlanColumns, insertPlanValues, List.lookup]

end queries
